import Mathlib

/-!
Shallow embedding of the copytrade engine of DavidNaak/copytradepoly.

The embedding follows src/services/copytrade.service.ts (the current
iteration of the service) together with the repository layer
(trade.repository.ts): `processBuyTrade`, `processSellTrade`, the polling
loop of `start`, the position cache, the repository queries used by the
engine, and `calculateRealizedPnL`.  Monetary quantities (JavaScript
numbers) are modelled as rationals; the external adapters (order
placement, remote position query) are modelled as oracle inputs, since
they are out-of-scope collaborators.  The ghost fields `ordersSubmitted`
and `budgetUpdates` record, respectively, the transaction hash at every
`placeMarketOrder` call site and the number of `repository.updateBudget`
calls; they change nothing else.
-/

namespace Copytrade

/-- Side of a trade, from the TS union type BUY | SELL. -/
inductive Side
| BUY
| SELL
deriving DecidableEq, Repr

/-- Status of a stored trade record: SUCCESS | FAILED | PENDING | SKIPPED. -/
inductive TradeStatus
| SUCCESS
| FAILED
| PENDING
| SKIPPED
deriving DecidableEq, Repr

/-- An observed trade of the target trader, as consumed by the service
(fields of PolymarketTrade that processBuyTrade / processSellTrade read). -/
structure PolymarketTrade where
  transactionHash : String
  side : Side
  asset : String
  title : String
  outcome : String
  size : ℚ
  price : ℚ
  timestamp : Int
deriving DecidableEq, Repr

/-- The static part of CopytradeConfig.  The mutable remainingBudget lives
in SessionState (the repository row and the in-memory copy are kept in
sync by the service, which re-reads the row before every trade). -/
structure CopytradeConfig where
  id : Nat
  traderAddress : String
  budget : ℚ
  copyPercentage : ℚ
  maxTradeSize : ℚ
  reinvest : Bool
deriving DecidableEq, Repr

/-- A row of the executed_trades table (ExecutedTrade). -/
structure ExecutedTrade where
  configId : Nat
  originalTradeId : String
  traderAddress : String
  market : String
  assetId : String
  side : Side
  originalSize : ℚ
  executedSize : ℚ
  price : ℚ
  status : TradeStatus
  orderId : Option String
  errorMessage : Option String
deriving DecidableEq, Repr

/-- Result of processing one trade (the TradeResult record). -/
inductive RStatus
| executed
| failed
| skipped
deriving DecidableEq, Repr

/-- The TradeResult returned by processBuyTrade / processSellTrade. -/
structure TradeResult where
  status : RStatus
  side : Side
  market : String
  outcome : String
  amount : Option ℚ := none
  skipReason : Option String := none
  errorMessage : Option String := none
  orderId : Option String := none
  budgetRemaining : Option ℚ := none
  proceedsAdded : Option ℚ := none
deriving DecidableEq, Repr

/-- Result of placeMarketOrder when it returns (OrderResult). -/
structure OrderResult where
  success : Bool
  orderId : String
  errorMessage : Option String
deriving DecidableEq, Repr

/-- Behaviour of one placeMarketOrder call: it either returns an
OrderResult or throws with an error message. -/
inductive OrderCall
| returns (r : OrderResult)
| throws (msg : String)
deriving DecidableEq, Repr

/-- Oracle for the external adapter calls made while processing one trade:
the remote share balance answered by getPositionSize, and the behaviour of
the placeMarketOrder call. -/
structure TradeOracle where
  apiShares : ℚ
  call : OrderCall
deriving DecidableEq, Repr

/-- Session state: the mutable data the service reads and writes while
processing trades.  records is the executed_trades table restricted to
this database (append-only); positionCache is the in-memory per-cycle
cache; isRunning is the loop flag.  ordersSubmitted and budgetUpdates are
ghost observers (see the file header). -/
structure SessionState where
  remainingBudget : ℚ
  records : List ExecutedTrade
  positionCache : List (String × ℚ)
  isRunning : Bool
  ordersSubmitted : List String
  budgetUpdates : Nat
deriving DecidableEq, Repr

/-- Polymarket minimum order size is one dollar (MIN_ORDER_SIZE_USD). -/
def MIN_ORDER_SIZE_USD : ℚ := 1

/-- Lookup in the position cache (Map.get). -/
def cacheGet : List (String × ℚ) → String → Option ℚ
| [], _ => none
| (b, w) :: rest, a => if b = a then some w else cacheGet rest a

/-- Update of the position cache (Map.set): replace in place, else append. -/
def cacheSet : List (String × ℚ) → String → ℚ → List (String × ℚ)
| [], a, v => [(a, v)]
| (b, w) :: rest, a, v =>
    if b = a then (a, v) :: rest else (b, w) :: cacheSet rest a v

/-- repository.isTradeProcessed: is a record with this original_trade_id
already stored? -/
def isTradeProcessed (records : List ExecutedTrade) (h : String) : Bool :=
  records.any (fun r => r.originalTradeId = h)

/-- Session position derived from the log (repository.getSessionPosition):
net shares and proportionally reduced cost basis over SUCCESS records of
this config and asset. -/
structure SessionPosition where
  shares : ℚ
  costBasis : ℚ
deriving DecidableEq, Repr

/-- repository.getSessionPosition. -/
def getSessionPosition (records : List ExecutedTrade) (configId : Nat)
    (assetId : String) : SessionPosition :=
  let rel := records.filter (fun r =>
    decide (r.configId = configId ∧ r.assetId = assetId ∧
      r.status = TradeStatus.SUCCESS))
  let buys := rel.filter (fun r => decide (r.side = Side.BUY))
  let sells := rel.filter (fun r => decide (r.side = Side.SELL))
  let buyShares := (buys.map (fun r => r.executedSize)).sum
  let buyValue := (buys.map (fun r => r.executedSize * r.price)).sum
  let sellShares := (sells.map (fun r => r.executedSize)).sum
  let netShares := buyShares - sellShares
  let costBasis :=
    if netShares > 0 ∧ buyShares > 0 then buyValue * (netShares / buyShares)
    else 0
  { shares := netShares, costBasis := costBasis }

/-- repository.hasSessionPosition: positive net session position. -/
def hasSessionPosition (records : List ExecutedTrade) (configId : Nat)
    (assetId : String) : Bool :=
  decide (0 < (getSessionPosition records configId assetId).shares)

/-- saveTradeRecord: repository.saveTrade, with the UNIQUE-constraint
violation on original_trade_id swallowed (the table keeps the first
record and the duplicate insert is ignored). -/
def saveTradeRecord (records : List ExecutedTrade) (t : ExecutedTrade) :
    List ExecutedTrade :=
  if isTradeProcessed records t.originalTradeId then records
  else records ++ [t]

/-- markTradeSkipped: build and save the SKIPPED record. -/
def skippedRecord (cfg : CopytradeConfig) (trade : PolymarketTrade)
    (reason : String) : ExecutedTrade :=
  { configId := cfg.id
    originalTradeId := trade.transactionHash
    traderAddress := cfg.traderAddress
    market := trade.title
    assetId := trade.asset
    side := trade.side
    originalSize := trade.size
    executedSize := 0
    price := trade.price
    status := TradeStatus.SKIPPED
    orderId := none
    errorMessage := some reason }

/-- Does the character list start with the pattern? -/
def startsWithChars : List Char → List Char → Bool
| _, [] => true
| [], _ :: _ => false
| c :: cs, d :: ds => decide (c = d) && startsWithChars cs ds

/-- Does the character list contain the pattern as a contiguous run? -/
def containsChars (sub : List Char) : List Char → Bool
| [] => sub.isEmpty
| c :: cs => startsWithChars (c :: cs) sub || containsChars sub cs

/-- JavaScript s.includes(sub) on strings: contiguous substring test. -/
def strIncludes (s sub : String) : Bool :=
  containsChars sub.data s.data

/-- JavaScript (o || d) where an absent or empty message falls back to the
default ("result.errorMessage || frown-default"). -/
def orElseStr (o : Option String) (d : String) : String :=
  match o with
  | some s => if s.isEmpty then d else s
  | none => d

/-- The dollar amount of a copied buy after the copy-percentage scaling,
the max-trade-size cap and the clamp to the remaining budget
(the assignments to tradeAmount in processBuyTrade). -/
def buyTradeAmount (cfg : CopytradeConfig) (trade : PolymarketTrade)
    (remainingBudget : ℚ) : ℚ :=
  let originalCost := trade.size * trade.price
  let tradeAmount0 := originalCost * cfg.copyPercentage / 100
  let tradeAmount1 := min tradeAmount0 cfg.maxTradeSize
  if tradeAmount1 > remainingBudget then remainingBudget else tradeAmount1

/-- processBuyTrade. -/
def processBuyTrade (cfg : CopytradeConfig) (st : SessionState)
    (trade : PolymarketTrade) (dryRun allowAddToPosition : Bool)
    (call : OrderCall) : TradeResult × SessionState :=
  if allowAddToPosition = false ∧
      hasSessionPosition st.records cfg.id trade.asset = true then
    ({ status := RStatus.skipped, side := Side.BUY, market := trade.title,
       outcome := trade.outcome, skipReason := some ("already hold position") },
     { st with records :=
        saveTradeRecord st.records (skippedRecord cfg trade ("Already hold position")) })
  else
    let originalCost := trade.size * trade.price
    let tradeAmount1 := min (originalCost * cfg.copyPercentage / 100) cfg.maxTradeSize
    if tradeAmount1 > st.remainingBudget ∧ st.remainingBudget ≤ 0 then
      ({ status := RStatus.skipped, side := Side.BUY, market := trade.title,
         outcome := trade.outcome, skipReason := some ("no budget") },
       { st with records :=
          saveTradeRecord st.records (skippedRecord cfg trade ("No budget")) })
    else
      let tradeAmount := buyTradeAmount cfg trade st.remainingBudget
      if tradeAmount ≤ 0 then
        ({ status := RStatus.skipped, side := Side.BUY, market := trade.title,
           outcome := trade.outcome, skipReason := some ("amount too small") },
         { st with records :=
            saveTradeRecord st.records (skippedRecord cfg trade ("Trade amount too small")) })
      else
        if tradeAmount < MIN_ORDER_SIZE_USD then
          ({ status := RStatus.skipped, side := Side.BUY, market := trade.title,
             outcome := trade.outcome, skipReason := some ("below $1 minimum") },
           { st with records :=
              saveTradeRecord st.records (skippedRecord cfg trade ("Below $1 minimum")) })
        else
          let estimatedShares := tradeAmount / trade.price
          let executedTrade : ExecutedTrade :=
            { configId := cfg.id
              originalTradeId := trade.transactionHash
              traderAddress := cfg.traderAddress
              market := trade.title
              assetId := trade.asset
              side := Side.BUY
              originalSize := trade.size
              executedSize := estimatedShares
              price := trade.price
              status := TradeStatus.PENDING
              orderId := none
              errorMessage := none }
          if dryRun = true then
            ({ status := RStatus.executed, side := Side.BUY,
               market := trade.title, outcome := trade.outcome,
               amount := some tradeAmount, orderId := some ("dry-run"),
               budgetRemaining := some st.remainingBudget },
             { st with records :=
                          saveTradeRecord st.records
                            ({ executedTrade with status := TradeStatus.SUCCESS, orderId := some ("dry-run") }) })
          else
            match call with
            | OrderCall.returns r =>
              if r.success = true ∧ r.orderId.isEmpty = false then
                let newBudget := st.remainingBudget - tradeAmount
                ({ status := RStatus.executed, side := Side.BUY,
                   market := trade.title, outcome := trade.outcome,
                   amount := some tradeAmount, orderId := some r.orderId,
                   budgetRemaining := some newBudget },
                 { st with
                    remainingBudget := newBudget
                    budgetUpdates := st.budgetUpdates + 1
                    ordersSubmitted := st.ordersSubmitted ++ [trade.transactionHash]
                    records := saveTradeRecord st.records
                      ({ executedTrade with status := TradeStatus.SUCCESS, orderId := some r.orderId }) })
              else
                let em := orElseStr r.errorMessage ("Order failed")
                ({ status := RStatus.failed, side := Side.BUY,
                   market := trade.title, outcome := trade.outcome,
                   amount := some tradeAmount, errorMessage := some em },
                 { st with
                    ordersSubmitted := st.ordersSubmitted ++ [trade.transactionHash]
                    records := saveTradeRecord st.records
                      ({ executedTrade with status := TradeStatus.FAILED, errorMessage := some em }) })
            | OrderCall.throws msg =>
              if strIncludes msg ("not enough balance") = true ∨
                  strIncludes msg ("allowance") = true then
                ({ status := RStatus.failed, side := Side.BUY,
                   market := trade.title, outcome := trade.outcome,
                   errorMessage := some ("Insufficient balance - stopping") },
                 { st with
                    isRunning := false
                    ordersSubmitted := st.ordersSubmitted ++ [trade.transactionHash] })
              else
                ({ status := RStatus.failed, side := Side.BUY,
                   market := trade.title, outcome := trade.outcome,
                   amount := some tradeAmount, errorMessage := some msg },
                 { st with
                    ordersSubmitted := st.ordersSubmitted ++ [trade.transactionHash]
                    records := saveTradeRecord st.records
                      ({ executedTrade with status := TradeStatus.FAILED, errorMessage := some msg }) })

/-- Reconciled share count of processSellTrade: the remote answer on the
first reference in a cycle, min with the cached value afterwards. -/
def reconcileShares (apiShares : ℚ) (cached : Option ℚ) : ℚ :=
  match cached with
  | some c => min apiShares c
  | none => apiShares

/-- The dollar value of a copied sell after the copy-percentage scaling
and the clamp to the value actually held (the assignments to ourSellValue
in processSellTrade). -/
def sellValueOf (cfg : CopytradeConfig) (trade : PolymarketTrade)
    (actualShares : ℚ) : ℚ :=
  let theirSellValue := trade.size * trade.price
  let ourSellValue := theirSellValue * cfg.copyPercentage / 100
  let actualPositionValue := actualShares * trade.price
  if ourSellValue > actualPositionValue then actualPositionValue
  else ourSellValue

/-- The share count of a copied sell: the sell value converted back to
shares, double-clamped to the reconciled holdings (sharesToSell). -/
def sellSharesToSell (cfg : CopytradeConfig) (trade : PolymarketTrade)
    (actualShares : ℚ) : ℚ :=
  let sharesToSell := sellValueOf cfg trade actualShares / trade.price
  if sharesToSell > actualShares then actualShares else sharesToSell

/-- processSellTrade. -/
def processSellTrade (cfg : CopytradeConfig) (st : SessionState)
    (trade : PolymarketTrade) (dryRun : Bool) (apiShares : ℚ)
    (call : OrderCall) : TradeResult × SessionState :=
  let sessionPosition := getSessionPosition st.records cfg.id trade.asset
  if sessionPosition.shares ≤ 0 then
    ({ status := RStatus.skipped, side := Side.SELL, market := trade.title,
       outcome := trade.outcome, skipReason := some ("no position") },
     { st with records :=
        saveTradeRecord st.records (skippedRecord cfg trade ("No position in session")) })
  else
    let actualShares := reconcileShares apiShares (cacheGet st.positionCache trade.asset)
    let st0 := { st with
      positionCache := cacheSet st.positionCache trade.asset actualShares }
    if actualShares ≤ 0 then
      ({ status := RStatus.skipped, side := Side.SELL, market := trade.title,
         outcome := trade.outcome, skipReason := some ("no position") },
       { st0 with records :=
          saveTradeRecord st0.records (skippedRecord cfg trade ("No actual position")) })
    else
      let ourSellValue := sellValueOf cfg trade actualShares
      let sharesToSell := sellSharesToSell cfg trade actualShares
      let executedTrade : ExecutedTrade :=
        { configId := cfg.id
          originalTradeId := trade.transactionHash
          traderAddress := cfg.traderAddress
          market := trade.title
          assetId := trade.asset
          side := Side.SELL
          originalSize := trade.size
          executedSize := sharesToSell
          price := trade.price
          status := TradeStatus.PENDING
          orderId := none
          errorMessage := none }
      if dryRun = true then
        ({ status := RStatus.executed, side := Side.SELL,
           market := trade.title, outcome := trade.outcome,
           amount := some ourSellValue, orderId := some ("dry-run") },
         { st0 with records :=
                      saveTradeRecord st0.records
                        ({ executedTrade with status := TradeStatus.SUCCESS, orderId := some ("dry-run") }) })
      else
        match call with
        | OrderCall.returns r =>
          if r.success = true ∧ r.orderId.isEmpty = false then
            let remainingShares := actualShares - sharesToSell
            let cache1 := cacheSet st0.positionCache trade.asset (max 0 remainingShares)
            let proceeds := sharesToSell * trade.price
            let newBudget :=
              if cfg.reinvest = true then st0.remainingBudget + proceeds
              else st0.remainingBudget
            ({ status := RStatus.executed, side := Side.SELL,
               market := trade.title, outcome := trade.outcome,
               amount := some ourSellValue, orderId := some r.orderId,
               proceedsAdded := if cfg.reinvest = true then some proceeds else none,
               budgetRemaining := some newBudget },
             { st0 with
                positionCache := cache1
                remainingBudget := newBudget
                budgetUpdates :=
                  if cfg.reinvest = true then st0.budgetUpdates + 1
                  else st0.budgetUpdates
                ordersSubmitted := st0.ordersSubmitted ++ [trade.transactionHash]
                records := saveTradeRecord st0.records
                  ({ executedTrade with status := TradeStatus.SUCCESS, orderId := some r.orderId }) })
          else
            let em := orElseStr r.errorMessage ("SELL order failed")
            ({ status := RStatus.failed, side := Side.SELL,
               market := trade.title, outcome := trade.outcome,
               amount := some ourSellValue, errorMessage := some em },
             { st0 with
                ordersSubmitted := st0.ordersSubmitted ++ [trade.transactionHash]
                records := saveTradeRecord st0.records
                  ({ executedTrade with status := TradeStatus.FAILED, errorMessage := some em }) })
        | OrderCall.throws msg =>
          ({ status := RStatus.failed, side := Side.SELL,
             market := trade.title, outcome := trade.outcome,
             amount := some ourSellValue, errorMessage := some msg },
           { st0 with
              ordersSubmitted := st0.ordersSubmitted ++ [trade.transactionHash]
              records := saveTradeRecord st0.records
                ({ executedTrade with status := TradeStatus.FAILED, errorMessage := some msg }) })

/-- processTrade: dispatch on the trade side. -/
def processTrade (cfg : CopytradeConfig) (st : SessionState)
    (trade : PolymarketTrade) (dryRun allowAddToPosition : Bool)
    (oracle : TradeOracle) : TradeResult × SessionState :=
  match trade.side with
  | Side.BUY => processBuyTrade cfg st trade dryRun allowAddToPosition oracle.call
  | Side.SELL => processSellTrade cfg st trade dryRun oracle.apiShares oracle.call

/-- One fetched feed entry together with the oracle for its processing. -/
abbrev FetchItem := PolymarketTrade × TradeOracle

/-- The filter of the polling loop: keep trades strictly newer than the
watermark whose transaction hash is not already recorded. -/
def newTradesOf (records : List ExecutedTrade) (lastProcessedTimestamp : Int)
    (fetched : List FetchItem) : List FetchItem :=
  fetched.filter (fun p =>
    decide (p.1.timestamp > lastProcessedTimestamp) &&
      !isTradeProcessed records p.1.transactionHash)

/-- The reduce that picks the latest trade of the batch. -/
def latestOf (t : PolymarketTrade) (ts : List PolymarketTrade) :
    PolymarketTrade :=
  ts.foldl (fun latest tr => if tr.timestamp > latest.timestamp then tr else latest) t

/-- One iteration of the polling loop of start: clear the position cache,
filter the fetched trades against watermark and log, process them in
order, and advance the watermark to the latest processed timestamp. -/
def pollCycle (cfg : CopytradeConfig) (dryRun allowAddToPosition : Bool)
    (st : SessionState) (lastProcessedTimestamp : Int)
    (fetched : List FetchItem) : SessionState × Int :=
  let st0 := { st with positionCache := [] }
  let newTrades := newTradesOf st0.records lastProcessedTimestamp fetched
  let st1 := newTrades.foldl
    (fun s p => (processTrade cfg s p.1 dryRun allowAddToPosition p.2).2) st0
  match newTrades with
  | [] => (st1, lastProcessedTimestamp)
  | t :: rest => (st1, (latestOf t.1 (rest.map Prod.fst)).timestamp)

/-- The polling loop of start: run one cycle per fetched batch while the
isRunning flag is set. -/
def runCycles (cfg : CopytradeConfig) (dryRun allowAddToPosition : Bool) :
    List (List FetchItem) → SessionState → Int → SessionState × Int
| [], st, ts => (st, ts)
| f :: fs, st, ts =>
    if st.isRunning = true then
      let next := pollCycle cfg dryRun allowAddToPosition st ts f
      runCycles cfg dryRun allowAddToPosition fs next.1 next.2
    else (st, ts)

/-- Grouping step of calculateRealizedPnL: append the trade to its asset
group, keeping insertion order of groups (the JS Map). -/
def insertTrade (groups : List (String × List ExecutedTrade))
    (t : ExecutedTrade) : List (String × List ExecutedTrade) :=
  match groups with
  | [] => [(t.assetId, [t])]
  | (a, ts) :: rest =>
      if a = t.assetId then (a, ts ++ [t]) :: rest
      else (a, ts) :: insertTrade rest t

/-- The byAsset Map of calculateRealizedPnL. -/
def groupByAsset (trades : List ExecutedTrade) :
    List (String × List ExecutedTrade) :=
  trades.foldl insertTrade []

/-- Per-asset realized profit of calculateRealizedPnL: zero if the asset
has no sells, else each sell marked against the weighted-average buy
price (zero average when there are no buy shares). -/
def assetPnL (g : List ExecutedTrade) : ℚ :=
  let buys := g.filter (fun t => decide (t.side = Side.BUY))
  let sells := g.filter (fun t => decide (t.side = Side.SELL))
  if sells.length = 0 then 0
  else
    let totalBuyShares := (buys.map (fun t => t.executedSize)).sum
    let totalBuyCost := (buys.map (fun t => t.executedSize * t.price)).sum
    let avgBuyPrice := if totalBuyShares > 0 then totalBuyCost / totalBuyShares else 0
    (sells.map (fun s => s.executedSize * s.price - s.executedSize * avgBuyPrice)).sum

/-- calculateRealizedPnL: total over the asset groups. -/
def calculateRealizedPnL (trades : List ExecutedTrade) : ℚ :=
  ((groupByAsset trades).map (fun g => assetPnL g.2)).sum

/-- The realized profit shown by showExitSummary: calculateRealizedPnL
applied to the SUCCESS records of the session. -/
def sessionRealizedPnL (records : List ExecutedTrade) : ℚ :=
  calculateRealizedPnL (records.filter (fun t => decide (t.status = TradeStatus.SUCCESS)))

/-- Modelled from the spec: the SUCCESS buy records of one asset. -/
def specBuys (records : List ExecutedTrade) (a : String) : List ExecutedTrade :=
  records.filter (fun t =>
    decide (t.assetId = a ∧ t.side = Side.BUY ∧ t.status = TradeStatus.SUCCESS))

/-- Modelled from the spec: the SUCCESS sell records of one asset. -/
def specSells (records : List ExecutedTrade) (a : String) : List ExecutedTrade :=
  records.filter (fun t =>
    decide (t.assetId = a ∧ t.side = Side.SELL ∧ t.status = TradeStatus.SUCCESS))

/-- Modelled from the spec: weighted-average buy price of an asset over
the SUCCESS buy records, zero when there are no such buys. -/
def specAvgBuyPrice (records : List ExecutedTrade) (a : String) : ℚ :=
  if specBuys records a = [] then 0
  else (((specBuys records a).map (fun t => t.executedSize * t.price)).sum) /
    (((specBuys records a).map (fun t => t.executedSize)).sum)

/-- Modelled from the spec: realized profit of one asset, every SUCCESS
sell marked against the weighted-average SUCCESS buy price. -/
def specSellPnL (records : List ExecutedTrade) (a : String) : ℚ :=
  ((specSells records a).map (fun s =>
    s.executedSize * s.price - s.executedSize * specAvgBuyPrice records a)).sum

/-- Modelled from the spec: realized profit as the sum, over the assets
possessing at least one SUCCESS sell, of the profit of every SUCCESS sell
against the weighted-average SUCCESS buy price of that asset. -/
def specRealizedPnL (records : List ExecutedTrade) : ℚ :=
  ((((records.filter (fun t =>
    decide (t.side = Side.SELL ∧ t.status = TradeStatus.SUCCESS))).map
      (fun t => t.assetId)).dedup).map (specSellPnL records)).sum

/-- Invariant tying the insertion-order grouping of calculateRealizedPnL
to the trades already folded in: group keys are distinct, each group
holds exactly the seen trades of its asset in order, and the key set is
the asset set of the seen trades. -/
def GroupInv (gs : List (String × List ExecutedTrade))
    (seen : List ExecutedTrade) : Prop :=
  (gs.map Prod.fst).Nodup ∧
  (∀ p ∈ gs, p.2 = seen.filter (fun r => decide (r.assetId = p.1))) ∧
  (∀ x, x ∈ gs.map Prod.fst ↔ x ∈ seen.map (fun r => r.assetId))

/-- The external identifiers (original_trade_id) of the stored outcome
records, in insertion order. -/
def recordIds (st : SessionState) : List String :=
  st.records.map (fun r => r.originalTradeId)

/-- Deduplication invariant of a session state: the outcome log holds at
most one record per external identifier (the UNIQUE column), at most one
order was submitted per identifier, and every submitted identifier is
recorded - except when the loop has been stopped (the balance/allowance
stop is the one path that submits without recording). -/
def DedupInv (st : SessionState) : Prop :=
  (recordIds st).Nodup ∧ st.ordersSubmitted.Nodup ∧
    ∀ h ∈ st.ordersSubmitted, h ∈ recordIds st ∨ st.isRunning = false

/-- A sample configuration: one-hundred-dollar budget, 100 percent copy,
twenty-dollar cap, reinvestment on. -/
def sampleConfig : CopytradeConfig :=
  { id := 1, traderAddress := ("0xT"), budget := 100, copyPercentage := 100,
    maxTradeSize := 20, reinvest := true }

/-- A fresh session state with the full budget and an empty log. -/
def sampleState : SessionState :=
  { remainingBudget := 100, records := [], positionCache := [],
    isRunning := true, ordersSubmitted := [], budgetUpdates := 0 }

/-- A sample observed buy: one hundred shares at fifty cents. -/
def sampleBuy : PolymarketTrade :=
  { transactionHash := ("0xh1"), side := Side.BUY, asset := ("X"),
    title := ("mkt"), outcome := ("Yes"), size := 100, price := 1/2,
    timestamp := 10 }

/-- A sample observed sell of asset A: ten shares at fifty cents. -/
def sampleSell : PolymarketTrade :=
  { transactionHash := ("0xh2"), side := Side.SELL, asset := ("A"),
    title := ("mkt"), outcome := ("Yes"), size := 10, price := 1/2,
    timestamp := 11 }

/-- A recorded successful session buy of asset A: ten shares at forty
cents, belonging to configuration one. -/
def sampleBuyRecord : ExecutedTrade :=
  { configId := 1, originalTradeId := ("t1"), traderAddress := ("0xT"),
    market := ("m"), assetId := ("A"), side := Side.BUY, originalSize := 10,
    executedSize := 10, price := 2/5, status := TradeStatus.SUCCESS,
    orderId := none, errorMessage := none }

/-- A successful order placement answer. -/
def okOrder : OrderResult :=
  { success := true, orderId := ("oid"), errorMessage := none }

/-- A small outcome log: asset A bought twice (ten shares at forty cents,
ten at sixty) and sold once (five shares at eighty cents), asset B bought
only, plus one FAILED record that the profit computation must ignore. -/
def samplePnlRecords : List ExecutedTrade :=
  [ sampleBuyRecord,
    { sampleBuyRecord with originalTradeId := ("t2"), price := 3/5 },
    { sampleBuyRecord with originalTradeId := ("t3"), side := Side.SELL, executedSize := 5, price := 4/5 },
    { sampleBuyRecord with originalTradeId := ("t4"), assetId := ("B") },
    { sampleBuyRecord with originalTradeId := ("t5"), executedSize := 7, status := TradeStatus.FAILED } ]

/-- A session holding ten recorded shares of asset A, with a cached
remote balance of sixty shares. -/
def samplePositionState : SessionState :=
  { sampleState with
      records := [sampleBuyRecord]
      positionCache := [((("A") : String), (60 : ℚ))] }

theorem cacheGet_cacheSet_self (c : List (String × ℚ)) (a : String) (v : ℚ) :
    cacheGet (cacheSet c a v) a = some v := by
  induction c with
  | nil => simp [cacheSet, cacheGet]
  | cons p rest ih =>
    obtain ⟨b, w⟩ := p
    by_cases h : b = a
    · simp [cacheSet, cacheGet, h]
    · simp [cacheSet, cacheGet, h, ih]

theorem cacheGet_cacheSet_ne (c : List (String × ℚ)) (a b : String) (v : ℚ)
    (h : a ≠ b) : cacheGet (cacheSet c a v) b = cacheGet c b := by
  induction c with
  | nil => simp [cacheSet, cacheGet, h]
  | cons p rest ih =>
    obtain ⟨x, w⟩ := p
    by_cases hx : x = a
    · subst hx
      simp [cacheSet, cacheGet, h]
    · simp [cacheSet, cacheGet, hx, ih]

theorem buyTradeAmount_eq_min (cfg : CopytradeConfig) (trade : PolymarketTrade)
    (rb : ℚ) :
    buyTradeAmount cfg trade rb =
      min (min (trade.size * trade.price * cfg.copyPercentage / 100)
        cfg.maxTradeSize) rb := by
  simp only [buyTradeAmount]
  rcases le_or_lt (min (trade.size * trade.price * cfg.copyPercentage / 100)
    cfg.maxTradeSize) rb with h | h
  · rw [if_neg (not_lt.mpr h), min_eq_left h]
  · rw [if_pos h, min_eq_right h.le]

/-- C4.  Cap precedence on buys: every buy the engine accepts is executed
with the dollar amount min(originalNotional * copyRatio, maxTradeSize),
further clamped down to the remaining budget; in particular the executed
amount is at most each of the raw copy amount, the per-trade cap and the
remaining budget before the trade, and is never scaled up.  Here the raw
copy amount is trade.size * trade.price * copyPercentage / 100, with
copyRatio = copyPercentage / 100. -/
theorem buy_cap_precedence (cfg : CopytradeConfig) (st : SessionState)
    (trade : PolymarketTrade) (d a : Bool) (call : OrderCall)
    (h : (processBuyTrade cfg st trade d a call).1.status = RStatus.executed) :
    ∃ q, (processBuyTrade cfg st trade d a call).1.amount = some q ∧
      q = min (min (trade.size * trade.price * cfg.copyPercentage / 100)
        cfg.maxTradeSize) st.remainingBudget ∧
      q ≤ trade.size * trade.price * cfg.copyPercentage / 100 ∧
      q ≤ cfg.maxTradeSize ∧ q ≤ st.remainingBudget := by
  have hq := buyTradeAmount_eq_min cfg trade st.remainingBudget
  have h1 : buyTradeAmount cfg trade st.remainingBudget ≤
      trade.size * trade.price * cfg.copyPercentage / 100 := by
    rw [hq]; exact le_trans (min_le_left _ _) (min_le_left _ _)
  have h2 : buyTradeAmount cfg trade st.remainingBudget ≤ cfg.maxTradeSize := by
    rw [hq]; exact le_trans (min_le_left _ _) (min_le_right _ _)
  have h3 : buyTradeAmount cfg trade st.remainingBudget ≤ st.remainingBudget := by
    rw [hq]; exact min_le_right _ _
  cases call with
  | returns r =>
    simp only [processBuyTrade] at h ⊢
    split_ifs at h ⊢ <;> simp_all
  | throws msg =>
    simp only [processBuyTrade] at h ⊢
    split_ifs at h ⊢ <;> simp_all

/-- Witness for C4: the sample fifty-dollar buy against the full budget is
accepted at the twenty-dollar cap. -/
theorem buy_cap_precedence_witness :
    ∃ q, (processBuyTrade sampleConfig sampleState sampleBuy false false
        (OrderCall.returns okOrder)).1.amount = some q ∧
      q = min (min (sampleBuy.size * sampleBuy.price *
          sampleConfig.copyPercentage / 100) sampleConfig.maxTradeSize)
        sampleState.remainingBudget ∧
      q ≤ sampleBuy.size * sampleBuy.price * sampleConfig.copyPercentage / 100 ∧
      q ≤ sampleConfig.maxTradeSize ∧ q ≤ sampleState.remainingBudget :=
  buy_cap_precedence sampleConfig sampleState sampleBuy false false
    (OrderCall.returns okOrder)
    (by norm_num +decide [processBuyTrade, hasSessionPosition,
      getSessionPosition, buyTradeAmount, MIN_ORDER_SIZE_USD, sampleConfig,
      sampleState, sampleBuy, okOrder])

/-- C6, counterexample.  With remaining budget fifty cents (positive but
below the one-dollar venue minimum) and an observed fifty-dollar buy, the
buy path does not return the reason claimed by the spec: the amount is
clamped down to the remaining budget and then rejected as below the
one-dollar minimum, so the skip reason is the minimum, not no-budget. -/
theorem no_budget_skip_counterexample :
    (processBuyTrade sampleConfig { sampleState with remainingBudget := 1/2 }
      sampleBuy false false (OrderCall.returns okOrder)).1.skipReason =
        some ("below $1 minimum") ∧
    (processBuyTrade sampleConfig { sampleState with remainingBudget := 1/2 }
      sampleBuy false false (OrderCall.returns okOrder)).1.skipReason ≠
        some ("no budget") ∧
    (processBuyTrade sampleConfig { sampleState with remainingBudget := 1/2 }
      sampleBuy false false (OrderCall.returns okOrder)).1.status =
        RStatus.skipped := by
  norm_num +decide [processBuyTrade, hasSessionPosition, getSessionPosition,
    buyTradeAmount, MIN_ORDER_SIZE_USD, sampleConfig, sampleState, sampleBuy,
    okOrder]

/-- C6, amended.  With a remaining budget that is positive but below the
one-dollar venue minimum, every observed buy is skipped, never with the
reason no-budget: the skip reason is the one-dollar minimum whenever the
capped copy amount is positive (or already-hold when the position guard
fires first), because the no-budget reason fires only when the remaining
budget is at most zero. -/
theorem no_budget_skip_amended (cfg : CopytradeConfig) (st : SessionState)
    (trade : PolymarketTrade) (d a : Bool) (call : OrderCall)
    (h1 : 0 < st.remainingBudget)
    (h2 : st.remainingBudget < MIN_ORDER_SIZE_USD) :
    (processBuyTrade cfg st trade d a call).1.status = RStatus.skipped ∧
    (processBuyTrade cfg st trade d a call).1.skipReason ≠ some ("no budget") ∧
    (0 < buyTradeAmount cfg trade st.remainingBudget →
      (processBuyTrade cfg st trade d a call).1.skipReason =
          some ("already hold position") ∨
      (processBuyTrade cfg st trade d a call).1.skipReason =
          some ("below $1 minimum")) := by
  have hle : buyTradeAmount cfg trade st.remainingBudget ≤ st.remainingBudget := by
    rw [buyTradeAmount_eq_min]; exact min_le_right _ _
  rw [MIN_ORDER_SIZE_USD] at h2
  cases call with
  | returns r =>
    simp only [processBuyTrade, MIN_ORDER_SIZE_USD] at *
    split_ifs at * <;> simp_all <;> try (intro hpos; linarith)
    all_goals linarith
  | throws msg =>
    simp only [processBuyTrade, MIN_ORDER_SIZE_USD] at *
    split_ifs at * <;> simp_all <;> try (intro hpos; linarith)
    all_goals linarith

/-- Witness for the amended C6 at the fifty-cent budget of the
counterexample. -/
theorem no_budget_skip_amended_witness :
    (processBuyTrade sampleConfig { sampleState with remainingBudget := 1/2 }
      sampleBuy false false (OrderCall.returns okOrder)).1.status =
        RStatus.skipped ∧
    (processBuyTrade sampleConfig { sampleState with remainingBudget := 1/2 }
      sampleBuy false false (OrderCall.returns okOrder)).1.skipReason ≠
        some ("no budget") ∧
    (0 < buyTradeAmount sampleConfig sampleBuy
        ({ sampleState with remainingBudget := 1/2 } : SessionState).remainingBudget →
      (processBuyTrade sampleConfig { sampleState with remainingBudget := 1/2 }
        sampleBuy false false (OrderCall.returns okOrder)).1.skipReason =
          some ("already hold position") ∨
      (processBuyTrade sampleConfig { sampleState with remainingBudget := 1/2 }
        sampleBuy false false (OrderCall.returns okOrder)).1.skipReason =
          some ("below $1 minimum")) :=
  no_budget_skip_amended sampleConfig
    { sampleState with remainingBudget := 1/2 } sampleBuy false false
    (OrderCall.returns okOrder)
    (by norm_num [sampleState])
    (by norm_num [sampleState, MIN_ORDER_SIZE_USD])

/-- C8, evaluation at the failing input.  When the remaining budget is
exhausted (zero), an observed buy is merely skipped with the no-budget
reason: processing it leaves the isRunning flag set, and a whole poll
cycle containing it also leaves the flag set, so the polling loop does
not terminate on its own, contrary to the claim (and to the source's own
comment that the normal-exit summary covers budget exhaustion); nothing
in the loop deactivates the configuration on exhaustion. -/
theorem budget_exhaustion_keeps_running :
    (processBuyTrade sampleConfig { sampleState with remainingBudget := 0 }
      sampleBuy false false (OrderCall.returns okOrder)).1.status =
        RStatus.skipped ∧
    (processBuyTrade sampleConfig { sampleState with remainingBudget := 0 }
      sampleBuy false false (OrderCall.returns okOrder)).1.skipReason =
        some ("no budget") ∧
    (processBuyTrade sampleConfig { sampleState with remainingBudget := 0 }
      sampleBuy false false (OrderCall.returns okOrder)).2.isRunning = true ∧
    (pollCycle sampleConfig false false
      { sampleState with remainingBudget := 0 } 0
      [(sampleBuy, { apiShares := 0, call := OrderCall.returns okOrder })]).1.isRunning
      = true := by
  norm_num +decide [pollCycle, newTradesOf, processTrade, processBuyTrade,
    hasSessionPosition, getSessionPosition, buyTradeAmount,
    MIN_ORDER_SIZE_USD, saveTradeRecord, isTradeProcessed, skippedRecord,
    latestOf, sampleConfig, sampleState, sampleBuy, okOrder]

theorem processBuyTrade_positionCache (cfg : CopytradeConfig)
    (st : SessionState) (tr : PolymarketTrade) (d a : Bool)
    (call : OrderCall) :
    (processBuyTrade cfg st tr d a call).2.positionCache = st.positionCache := by
  cases call with
  | returns r =>
    simp only [processBuyTrade]
    split_ifs <;> rfl
  | throws msg =>
    simp only [processBuyTrade]
    split_ifs <;> rfl

theorem sellValueOf_nonneg (cfg : CopytradeConfig) (tr : PolymarketTrade)
    (aS : ℚ) (hs : 0 ≤ tr.size) (hp : 0 ≤ tr.price)
    (hc : 0 ≤ cfg.copyPercentage) (ha : 0 ≤ aS) :
    0 ≤ sellValueOf cfg tr aS := by
  simp only [sellValueOf]
  split_ifs
  · exact mul_nonneg ha hp
  · positivity

theorem sellSharesToSell_nonneg (cfg : CopytradeConfig)
    (tr : PolymarketTrade) (aS : ℚ) (hs : 0 ≤ tr.size) (hp : 0 ≤ tr.price)
    (hc : 0 ≤ cfg.copyPercentage) (ha : 0 ≤ aS) :
    0 ≤ sellSharesToSell cfg tr aS := by
  simp only [sellSharesToSell]
  split_ifs
  · exact ha
  · exact div_nonneg (sellValueOf_nonneg cfg tr aS hs hp hc ha) hp

theorem sellSharesToSell_le_actual (cfg : CopytradeConfig)
    (tr : PolymarketTrade) (aS : ℚ) :
    sellSharesToSell cfg tr aS ≤ aS := by
  simp only [sellSharesToSell]
  split_ifs with h
  · exact le_refl aS
  · exact not_lt.mp h

theorem processSellTrade_cache_mono (cfg : CopytradeConfig)
    (st : SessionState) (tr : PolymarketTrade) (d : Bool) (api : ℚ)
    (call : OrderCall) (asset : String) (v : ℚ)
    (hs : 0 ≤ tr.size) (hp : 0 ≤ tr.price) (hc : 0 ≤ cfg.copyPercentage)
    (hv : cacheGet st.positionCache asset = some v) :
    ∃ w, cacheGet (processSellTrade cfg st tr d api call).2.positionCache
      asset = some w ∧ w ≤ v := by
  by_cases heq : asset = tr.asset
  · subst heq
    have hrec : reconcileShares api (cacheGet st.positionCache tr.asset) = min api v := by
      rw [hv]; rfl
    have haSle : reconcileShares api (cacheGet st.positionCache tr.asset) ≤ v := by
      rw [hrec]; exact min_le_right _ _
    cases call with
    | returns r =>
      simp only [processSellTrade]
      split_ifs with hsp hz hd hr hri
      · exact ⟨v, hv, le_refl v⟩
      · exact ⟨_, cacheGet_cacheSet_self _ _ _, haSle⟩
      · exact ⟨_, cacheGet_cacheSet_self _ _ _, haSle⟩
      · have haS0 : 0 ≤ reconcileShares api (cacheGet st.positionCache tr.asset) :=
          le_of_lt (not_le.mp hz)
        have hv0 : 0 ≤ v := haS0.trans haSle
        have hsts := sellSharesToSell_nonneg cfg tr
          (reconcileShares api (cacheGet st.positionCache tr.asset)) hs hp hc haS0
        refine ⟨_, cacheGet_cacheSet_self _ _ _, ?_⟩
        exact max_le hv0 (by linarith)
      · have haS0 : 0 ≤ reconcileShares api (cacheGet st.positionCache tr.asset) :=
          le_of_lt (not_le.mp hz)
        have hv0 : 0 ≤ v := haS0.trans haSle
        have hsts := sellSharesToSell_nonneg cfg tr
          (reconcileShares api (cacheGet st.positionCache tr.asset)) hs hp hc haS0
        refine ⟨_, cacheGet_cacheSet_self _ _ _, ?_⟩
        exact max_le hv0 (by linarith)
      · exact ⟨_, cacheGet_cacheSet_self _ _ _, haSle⟩
    | throws msg =>
      simp only [processSellTrade]
      split_ifs with hsp hz hd
      · exact ⟨v, hv, le_refl v⟩
      · exact ⟨_, cacheGet_cacheSet_self _ _ _, haSle⟩
      · exact ⟨_, cacheGet_cacheSet_self _ _ _, haSle⟩
      · exact ⟨_, cacheGet_cacheSet_self _ _ _, haSle⟩
  · have hne : tr.asset ≠ asset := fun hx => heq hx.symm
    cases call with
    | returns r =>
      simp only [processSellTrade]
      split_ifs <;>
        first
        | exact ⟨v, hv, le_refl v⟩
        | exact ⟨v, (cacheGet_cacheSet_ne _ _ _ _ hne).trans hv, le_refl v⟩
        | exact ⟨v, (cacheGet_cacheSet_ne _ _ _ _ hne).trans
            ((cacheGet_cacheSet_ne _ _ _ _ hne).trans hv), le_refl v⟩
    | throws msg =>
      simp only [processSellTrade]
      split_ifs <;>
        first
        | exact ⟨v, hv, le_refl v⟩
        | exact ⟨v, (cacheGet_cacheSet_ne _ _ _ _ hne).trans hv, le_refl v⟩

/-- C3.  Sell never exceeds holdings: the share count the engine decides
to sell is at most the reconciled share count at decision time, and for
every cached asset the cached reconciled share value is monotonically
non-increasing across processing of any further trade in the cycle (each
reconciliation takes a min with the cached value, and a successful sell
reduces the cache by the sold shares, floored at zero). -/
theorem sell_never_exceeds_holdings :
    (∀ (cfg : CopytradeConfig) (tr : PolymarketTrade) (aS : ℚ),
      sellSharesToSell cfg tr aS ≤ aS) ∧
    (∀ (cfg : CopytradeConfig) (st : SessionState) (tr : PolymarketTrade)
      (d a : Bool) (oracle : TradeOracle) (asset : String) (v : ℚ),
      0 ≤ tr.size → 0 ≤ tr.price → 0 ≤ cfg.copyPercentage →
      cacheGet st.positionCache asset = some v →
      ∃ w, cacheGet (processTrade cfg st tr d a oracle).2.positionCache asset
        = some w ∧ w ≤ v) := by
  constructor
  · exact sellSharesToSell_le_actual
  · intro cfg st tr d a oracle asset v hs hp hc hv
    obtain ⟨hash, side, ast, title, outc, size, price, ts⟩ := tr
    cases side with
    | BUY =>
      simp only [processTrade]
      rw [processBuyTrade_positionCache]
      exact ⟨v, hv, le_refl v⟩
    | SELL =>
      simp only [processTrade]
      exact processSellTrade_cache_mono cfg st _ d oracle.apiShares
        oracle.call asset v hs hp hc hv

/-- Witness for C3: processing the sample sell against a cached sixty
shares leaves a cache entry of at most sixty. -/
theorem sell_never_exceeds_holdings_witness :
    ∃ w, cacheGet (processTrade sampleConfig samplePositionState sampleSell
      false false { apiShares := 100, call := OrderCall.returns okOrder
        }).2.positionCache ("A") = some w ∧ w ≤ 60 :=
  sell_never_exceeds_holdings.2 sampleConfig samplePositionState sampleSell
    false false { apiShares := 100, call := OrderCall.returns okOrder }
    ("A") 60
    (by norm_num [sampleSell]) (by norm_num [sampleSell])
    (by norm_num [sampleConfig])
    (by norm_num [samplePositionState, sampleState, cacheGet])

/-- C5.  Reconciliation rule: the first reconciliation of an asset in a
cycle returns the remote query result; a later one returns the min of
the remote result and the cached value; after a successful sell the
cache entry equals max(0, reconciled - soldShares); and a stale remote
read of one hundred against a cache of sixty reconciles to sixty. -/
theorem reconciliation_rule :
    (∀ api : ℚ, reconcileShares api none = api) ∧
    (∀ api c : ℚ, reconcileShares api (some c) = min api c) ∧
    (∀ (cfg : CopytradeConfig) (st : SessionState) (tr : PolymarketTrade)
      (api : ℚ) (r : OrderResult),
      ¬(getSessionPosition st.records cfg.id tr.asset).shares ≤ 0 →
      ¬reconcileShares api (cacheGet st.positionCache tr.asset) ≤ 0 →
      r.success = true → r.orderId.isEmpty = false →
      cacheGet (processSellTrade cfg st tr false api
          (OrderCall.returns r)).2.positionCache tr.asset =
        some (max 0 (reconcileShares api (cacheGet st.positionCache tr.asset) -
          sellSharesToSell cfg tr
            (reconcileShares api (cacheGet st.positionCache tr.asset))))) ∧
    reconcileShares 100 (some 60) = 60 := by
  refine ⟨fun api => rfl, fun api c => rfl, ?_, by norm_num [reconcileShares]⟩
  intro cfg st tr api r hsp hz hrs hro
  simp only [processSellTrade]
  rw [if_neg hsp, if_neg hz, if_neg (by simp : ¬(false = true)),
    if_pos (⟨hrs, hro⟩ : r.success = true ∧ r.orderId.isEmpty = false)]
  exact cacheGet_cacheSet_self _ _ _

/-- Witness for C5: the sample sell with a stale remote read of one
hundred against the cached sixty updates the cache to the floored
difference. -/
theorem reconciliation_rule_witness :
    cacheGet (processSellTrade sampleConfig samplePositionState sampleSell
        false 100 (OrderCall.returns okOrder)).2.positionCache
      sampleSell.asset =
    some (max 0 (reconcileShares 100
        (cacheGet samplePositionState.positionCache sampleSell.asset) -
      sellSharesToSell sampleConfig sampleSell (reconcileShares 100
        (cacheGet samplePositionState.positionCache sampleSell.asset)))) :=
  reconciliation_rule.2.2.1 sampleConfig samplePositionState sampleSell 100
    okOrder
    (by norm_num +decide [getSessionPosition, samplePositionState,
      sampleState, sampleBuyRecord, sampleConfig, sampleSell])
    (by norm_num +decide [reconcileShares, cacheGet, samplePositionState,
      sampleState, sampleSell])
    (by norm_num [okOrder]) (by decide)

theorem processBuyTrade_budget_nonneg (cfg : CopytradeConfig)
    (st : SessionState) (tr : PolymarketTrade) (d a : Bool)
    (call : OrderCall) (h : 0 ≤ st.remainingBudget) :
    0 ≤ (processBuyTrade cfg st tr d a call).2.remainingBudget := by
  have hle : buyTradeAmount cfg tr st.remainingBudget ≤ st.remainingBudget := by
    rw [buyTradeAmount_eq_min]; exact min_le_right _ _
  cases call with
  | returns r =>
    simp only [processBuyTrade]
    split_ifs <;> simp_all <;> linarith
  | throws msg =>
    simp only [processBuyTrade]
    split_ifs <;> simp_all <;> linarith

theorem processSellTrade_budget_nonneg (cfg : CopytradeConfig)
    (st : SessionState) (tr : PolymarketTrade) (d : Bool) (api : ℚ)
    (call : OrderCall) (hs : 0 ≤ tr.size) (hp : 0 ≤ tr.price)
    (hc : 0 ≤ cfg.copyPercentage) (h : 0 ≤ st.remainingBudget) :
    0 ≤ (processSellTrade cfg st tr d api call).2.remainingBudget := by
  cases call with
  | returns r =>
    simp only [processSellTrade]
    split_ifs with hsp hz hd hr hri <;> try simp_all
    have haS0 : 0 ≤ reconcileShares api (cacheGet st.positionCache tr.asset) :=
      le_of_lt hz
    have hsts := sellSharesToSell_nonneg cfg tr
      (reconcileShares api (cacheGet st.positionCache tr.asset)) hs hp hc haS0
    have : 0 ≤ sellSharesToSell cfg tr
        (reconcileShares api (cacheGet st.positionCache tr.asset)) * tr.price :=
      mul_nonneg hsts hp
    linarith
  | throws msg =>
    simp only [processSellTrade]
    split_ifs <;> simp_all

theorem processTrade_budget_nonneg (cfg : CopytradeConfig)
    (st : SessionState) (tr : PolymarketTrade) (d a : Bool)
    (oracle : TradeOracle) (hs : 0 ≤ tr.size) (hp : 0 ≤ tr.price)
    (hc : 0 ≤ cfg.copyPercentage) (h : 0 ≤ st.remainingBudget) :
    0 ≤ (processTrade cfg st tr d a oracle).2.remainingBudget := by
  obtain ⟨hash, side, ast, title, outc, size, price, ts⟩ := tr
  cases side with
  | BUY =>
    simp only [processTrade]
    exact processBuyTrade_budget_nonneg cfg st _ d a oracle.call h
  | SELL =>
    simp only [processTrade]
    exact processSellTrade_budget_nonneg cfg st _ d oracle.apiShares
      oracle.call hs hp hc h

theorem foldl_budget_nonneg (cfg : CopytradeConfig) (d a : Bool)
    (hc : 0 ≤ cfg.copyPercentage) :
    ∀ (l : List FetchItem) (st : SessionState),
      (∀ p ∈ l, 0 ≤ p.1.size ∧ 0 ≤ p.1.price) → 0 ≤ st.remainingBudget →
      0 ≤ (l.foldl
        (fun s p => (processTrade cfg s p.1 d a p.2).2) st).remainingBudget
| [], st, _, h => h
| p :: rest, st, hall, h => by
    simp only [List.foldl_cons]
    exact foldl_budget_nonneg cfg d a hc rest _
      (fun q hq => hall q (List.mem_cons_of_mem p hq))
      (processTrade_budget_nonneg cfg st p.1 d a p.2
        (hall p (List.mem_cons_self p rest)).1
        (hall p (List.mem_cons_self p rest)).2 hc h)

theorem pollCycle_budget_nonneg (cfg : CopytradeConfig) (d a : Bool)
    (hc : 0 ≤ cfg.copyPercentage) (st : SessionState) (ts : Int)
    (f : List FetchItem) (hall : ∀ p ∈ f, 0 ≤ p.1.size ∧ 0 ≤ p.1.price)
    (h : 0 ≤ st.remainingBudget) :
    0 ≤ (pollCycle cfg d a st ts f).1.remainingBudget := by
  simp only [pollCycle]
  have hsub : ∀ p ∈ newTradesOf ({ st with positionCache := [] }
      : SessionState).records ts f, 0 ≤ p.1.size ∧ 0 ≤ p.1.price := by
    intro p hp
    exact hall p (List.mem_of_mem_filter hp)
  have hfold := foldl_budget_nonneg cfg d a hc
    (newTradesOf ({ st with positionCache := [] } : SessionState).records ts f)
    { st with positionCache := [] } hsub h
  cases hnt : newTradesOf ({ st with positionCache := [] }
      : SessionState).records ts f with
  | nil => simpa [hnt] using hfold
  | cons t rest => simpa [hnt] using hfold

theorem runCycles_budget_nonneg (cfg : CopytradeConfig) (d a : Bool)
    (hc : 0 ≤ cfg.copyPercentage) :
    ∀ (fetches : List (List FetchItem)) (st : SessionState) (ts : Int),
      (∀ f ∈ fetches, ∀ p ∈ f, 0 ≤ p.1.size ∧ 0 ≤ p.1.price) →
      0 ≤ st.remainingBudget →
      0 ≤ (runCycles cfg d a fetches st ts).1.remainingBudget
| [], st, ts, _, h => h
| f :: fs, st, ts, hall, h => by
    simp only [runCycles]
    split_ifs with hrun
    · exact runCycles_budget_nonneg cfg d a hc fs _ _
        (fun g hg => hall g (List.mem_cons_of_mem f hg))
        (pollCycle_budget_nonneg cfg d a hc st ts f
          (hall f (List.mem_cons_self f fs)) h)
    · exact h

/-- C1.  Budget never negative: a session whose remaining budget starts
non-negative (in particular one started at its positive initial budget)
keeps a non-negative remaining budget after every processed trade and
after any sequence of poll cycles: an executed buy debits at most the
remaining budget (the amount is clamped to it, and the trade is skipped
when the budget is not positive), and a reinvested sell only credits. -/
theorem budget_never_negative (cfg : CopytradeConfig) (d a : Bool)
    (hc : 0 ≤ cfg.copyPercentage) :
    (∀ (st : SessionState) (tr : PolymarketTrade) (oracle : TradeOracle),
      0 ≤ tr.size → 0 ≤ tr.price → 0 ≤ st.remainingBudget →
      0 ≤ (processTrade cfg st tr d a oracle).2.remainingBudget) ∧
    (∀ (fetches : List (List FetchItem)) (st : SessionState) (ts : Int),
      (∀ f ∈ fetches, ∀ p ∈ f, 0 ≤ p.1.size ∧ 0 ≤ p.1.price) →
      0 ≤ st.remainingBudget →
      0 ≤ (runCycles cfg d a fetches st ts).1.remainingBudget) := by
  constructor
  · intro st tr oracle hs hp h
    exact processTrade_budget_nonneg cfg st tr d a oracle hs hp hc h
  · intro fetches st ts hall h
    exact runCycles_budget_nonneg cfg d a hc fetches st ts hall h

/-- Witness for C1: one poll cycle containing the sample buy keeps the
remaining budget non-negative. -/
theorem budget_never_negative_witness :
    0 ≤ (runCycles sampleConfig false false
      [[(sampleBuy, { apiShares := 0, call := OrderCall.returns okOrder })]]
      sampleState 0).1.remainingBudget :=
  (budget_never_negative sampleConfig false false
      (by norm_num [sampleConfig])).2
    [[(sampleBuy, { apiShares := 0, call := OrderCall.returns okOrder })]]
    sampleState 0
    (by
      intro f hf p hp
      simp only [List.mem_cons, List.not_mem_nil, or_false] at hf
      subst hf
      simp only [List.mem_cons, List.not_mem_nil, or_false] at hp
      subst hp
      norm_num [sampleBuy])
    (by norm_num [sampleState])

theorem isTradeProcessed_saveTradeRecord_self (records : List ExecutedTrade)
    (t : ExecutedTrade) :
    isTradeProcessed (saveTradeRecord records t) t.originalTradeId = true := by
  simp only [saveTradeRecord]
  split_ifs with h
  · exact h
  · simp [isTradeProcessed, List.any_append]

/-- C7, counterexample.  A thrown network error during buy order
placement does write a FAILED outcome record (only the budget stays
untouched): after the sample buy throws a network-timeout error, the log
holds exactly one FAILED record and the trade is marked applied, so it
will not be retried - contradicting the claim that no outcome record is
written and the trade is retried next cycle. -/
theorem recoverable_error_counterexample :
    ((processBuyTrade sampleConfig sampleState sampleBuy false false
      (OrderCall.throws ("network timeout"))).2.records.map
        (fun r => r.status)) = [TradeStatus.FAILED] ∧
    isTradeProcessed (processBuyTrade sampleConfig sampleState sampleBuy
      false false
      (OrderCall.throws ("network timeout"))).2.records
      sampleBuy.transactionHash = true ∧
    (processBuyTrade sampleConfig sampleState sampleBuy false false
      (OrderCall.throws ("network timeout"))).2.remainingBudget =
      sampleState.remainingBudget := by
  norm_num +decide [processBuyTrade, hasSessionPosition, getSessionPosition,
    buyTradeAmount, MIN_ORDER_SIZE_USD, saveTradeRecord, isTradeProcessed,
    strIncludes, containsChars, startsWithChars, sampleConfig, sampleState,
    sampleBuy]

/-- C7, amended.  If the order-placement call throws while processing a
trade (dry-run off), no budget state is mutated (the remaining budget
and the count of updateBudget calls are unchanged), but the trade ends
up marked applied in the outcome log - a FAILED or SKIPPED record exists
for its hash - except in the balance/allowance buy case, which writes no
record but stops the polling loop instead, so no retry happens in any
case. -/
theorem thrown_error_amended (cfg : CopytradeConfig) (st : SessionState)
    (tr : PolymarketTrade) (a : Bool) (api : ℚ) (msg : String) :
    (processTrade cfg st tr false a
      { apiShares := api, call := OrderCall.throws msg }).2.remainingBudget =
      st.remainingBudget ∧
    (processTrade cfg st tr false a
      { apiShares := api, call := OrderCall.throws msg }).2.budgetUpdates =
      st.budgetUpdates ∧
    (isTradeProcessed (processTrade cfg st tr false a
        { apiShares := api, call := OrderCall.throws msg }).2.records
        tr.transactionHash = true ∨
      (processTrade cfg st tr false a
        { apiShares := api, call := OrderCall.throws msg }).2.isRunning =
        false) := by
  obtain ⟨hash, side, ast, title, outc, size, price, ts⟩ := tr
  cases side with
  | BUY =>
    simp only [processTrade, processBuyTrade]
    split_ifs <;>
      refine ⟨rfl, rfl, ?_⟩ <;>
      first
      | exact Or.inr rfl
      | exact Or.inl (isTradeProcessed_saveTradeRecord_self _ _)
  | SELL =>
    simp only [processTrade, processSellTrade]
    split_ifs <;>
      refine ⟨rfl, rfl, ?_⟩ <;>
      exact Or.inl (isTradeProcessed_saveTradeRecord_self _ _)


theorem saveTradeRecord_not_processed (records : List ExecutedTrade)
    (t : ExecutedTrade)
    (h : isTradeProcessed records t.originalTradeId = false) :
    saveTradeRecord records t = records ++ [t] := by
  simp [saveTradeRecord, h]

/-- C10.  Dry-run frame effect: with dryRun set, processing any trade
leaves the remaining budget unchanged and never calls updateBudget, yet
when the trade is accepted a SUCCESS outcome record with order id dry-run
is still appended to the log under the trade's transaction hash, so the
session position and realized profit derived from the log include the
simulated trade. -/
theorem dry_run_frame_effect (cfg : CopytradeConfig) (st : SessionState)
    (tr : PolymarketTrade) (a : Bool) (oracle : TradeOracle) :
    (processTrade cfg st tr true a oracle).2.remainingBudget =
      st.remainingBudget ∧
    (processTrade cfg st tr true a oracle).2.budgetUpdates =
      st.budgetUpdates ∧
    ((processTrade cfg st tr true a oracle).1.status = RStatus.executed →
      isTradeProcessed st.records tr.transactionHash = false →
      ∃ rec, (processTrade cfg st tr true a oracle).2.records =
          st.records ++ [rec] ∧
        rec.status = TradeStatus.SUCCESS ∧ rec.orderId = some ("dry-run") ∧
        rec.originalTradeId = tr.transactionHash) := by
  obtain ⟨hash, side, ast, title, outc, size, price, ts⟩ := tr
  cases side with
  | BUY =>
    simp only [processTrade, processBuyTrade]
    split_ifs with h1 h2 h3 h4 <;> refine ⟨rfl, rfl, ?_⟩ <;> intro hex hnp
    · simp at hex
    · simp at hex
    · simp at hex
    · simp at hex
    · exact ⟨_, saveTradeRecord_not_processed _ _ (by simpa using hnp),
        rfl, rfl, rfl⟩
  | SELL =>
    simp only [processTrade, processSellTrade]
    split_ifs with h1 h2 <;> refine ⟨rfl, rfl, ?_⟩ <;> intro hex hnp
    · simp at hex
    · simp at hex
    · exact ⟨_, saveTradeRecord_not_processed _ _ (by simpa using hnp),
        rfl, rfl, rfl⟩

/-- Witness for C10: the sample buy processed in dry-run keeps the
budget at one hundred and appends the simulated SUCCESS record. -/
theorem dry_run_frame_effect_witness :
    (processTrade sampleConfig sampleState sampleBuy true false
      { apiShares := 0, call := OrderCall.returns okOrder }).2.remainingBudget =
      sampleState.remainingBudget ∧
    ∃ rec, (processTrade sampleConfig sampleState sampleBuy true false
        { apiShares := 0, call := OrderCall.returns okOrder }).2.records =
        sampleState.records ++ [rec] ∧
      rec.status = TradeStatus.SUCCESS ∧ rec.orderId = some ("dry-run") ∧
      rec.originalTradeId = sampleBuy.transactionHash :=
  ⟨(dry_run_frame_effect sampleConfig sampleState sampleBuy false
      { apiShares := 0, call := OrderCall.returns okOrder }).1,
    (dry_run_frame_effect sampleConfig sampleState sampleBuy false
      { apiShares := 0, call := OrderCall.returns okOrder }).2.2
      (by norm_num +decide [processTrade, processBuyTrade,
        hasSessionPosition, getSessionPosition, buyTradeAmount,
        MIN_ORDER_SIZE_USD, sampleConfig, sampleState, sampleBuy])
      (by norm_num [isTradeProcessed, sampleState])⟩

theorem isTradeProcessed_iff (records : List ExecutedTrade) (h : String) :
    isTradeProcessed records h = true ↔
      h ∈ records.map (fun r => r.originalTradeId) := by
  simp [isTradeProcessed, List.any_eq_true, List.mem_map]

theorem saveTradeRecord_ids (records : List ExecutedTrade)
    (t : ExecutedTrade) :
    (saveTradeRecord records t).map (fun r => r.originalTradeId) =
        records.map (fun r => r.originalTradeId) ∨
      (saveTradeRecord records t).map (fun r => r.originalTradeId) =
        records.map (fun r => r.originalTradeId) ++ [t.originalTradeId] := by
  simp only [saveTradeRecord]
  split_ifs with h
  · exact Or.inl rfl
  · exact Or.inr (by simp)

theorem append_singleton_ne (l : List String) (x : String) :
    l ≠ l ++ [x] := by simp

theorem processTrade_tracking (cfg : CopytradeConfig) (st : SessionState)
    (tr : PolymarketTrade) (d a : Bool) (oracle : TradeOracle) :
    (recordIds (processTrade cfg st tr d a oracle).2 = recordIds st ∨
      recordIds (processTrade cfg st tr d a oracle).2 =
        recordIds st ++ [tr.transactionHash]) ∧
    ((processTrade cfg st tr d a oracle).2.ordersSubmitted =
        st.ordersSubmitted ∨
      (processTrade cfg st tr d a oracle).2.ordersSubmitted =
        st.ordersSubmitted ++ [tr.transactionHash]) ∧
    (st.isRunning = false →
      (processTrade cfg st tr d a oracle).2.isRunning = false) ∧
    ((processTrade cfg st tr d a oracle).2.ordersSubmitted =
        st.ordersSubmitted ++ [tr.transactionHash] →
      (processTrade cfg st tr d a oracle).2.isRunning = false ∨
        tr.transactionHash ∈ recordIds (processTrade cfg st tr d a oracle).2) := by
  obtain ⟨api, call⟩ := oracle
  obtain ⟨hash, side, ast, title, outc, size, price, ts⟩ := tr
  cases side with
  | BUY =>
    cases call with
    | returns r =>
      simp only [processTrade, processBuyTrade, recordIds]
      split_ifs <;>
        refine ⟨?_, ?_, ?_, ?_⟩ <;>
        first
        | exact Or.inl rfl
        | exact Or.inr rfl
        | exact saveTradeRecord_ids _ _
        | exact fun h => h
        | exact fun h => rfl
        | (intro hsub; exact absurd hsub (append_singleton_ne _ _))
        | (intro hsub; exact Or.inr ((isTradeProcessed_iff _ _).mp
            (isTradeProcessed_saveTradeRecord_self _ _)))
        | (intro hsub; exact Or.inl rfl)
    | throws msg =>
      simp only [processTrade, processBuyTrade, recordIds]
      split_ifs <;>
        refine ⟨?_, ?_, ?_, ?_⟩ <;>
        first
        | exact Or.inl rfl
        | exact Or.inr rfl
        | exact saveTradeRecord_ids _ _
        | exact fun h => h
        | exact fun h => rfl
        | (intro hsub; exact absurd hsub (append_singleton_ne _ _))
        | (intro hsub; exact Or.inr ((isTradeProcessed_iff _ _).mp
            (isTradeProcessed_saveTradeRecord_self _ _)))
        | (intro hsub; exact Or.inl rfl)
  | SELL =>
    cases call with
    | returns r =>
      simp only [processTrade, processSellTrade, recordIds]
      split_ifs <;>
        refine ⟨?_, ?_, ?_, ?_⟩ <;>
        first
        | exact Or.inl rfl
        | exact Or.inr rfl
        | exact saveTradeRecord_ids _ _
        | exact fun h => h
        | exact fun h => rfl
        | (intro hsub; exact absurd hsub (append_singleton_ne _ _))
        | (intro hsub; exact Or.inr ((isTradeProcessed_iff _ _).mp
            (isTradeProcessed_saveTradeRecord_self _ _)))
    | throws msg =>
      simp only [processTrade, processSellTrade, recordIds]
      split_ifs <;>
        refine ⟨?_, ?_, ?_, ?_⟩ <;>
        first
        | exact Or.inl rfl
        | exact Or.inr rfl
        | exact saveTradeRecord_ids _ _
        | exact fun h => h
        | exact fun h => rfl
        | (intro hsub; exact absurd hsub (append_singleton_ne _ _))
        | (intro hsub; exact Or.inr ((isTradeProcessed_iff _ _).mp
            (isTradeProcessed_saveTradeRecord_self _ _)))


theorem foldl_dedup (cfg : CopytradeConfig) (d a : Bool) :
    ∀ (l : List FetchItem) (st : SessionState),
      ((l.map (fun p => p.1.transactionHash)).Nodup) →
      (∀ p ∈ l, p.1.transactionHash ∉ recordIds st ∧
        p.1.transactionHash ∉ st.ordersSubmitted) →
      DedupInv st →
      DedupInv (l.foldl (fun s p => (processTrade cfg s p.1 d a p.2).2) st)
| [], st, _, _, hinv => hinv
| p :: rest, st, hnd, hall, hinv => by
    simp only [List.foldl_cons]
    obtain ⟨hids, hsub, hrun, hsub4⟩ := processTrade_tracking cfg st p.1 d a p.2
    obtain ⟨hp1, hp2⟩ := hall p (List.mem_cons_self p rest)
    obtain ⟨hinv1, hinv2, hinv3⟩ := hinv
    rw [List.map_cons, List.nodup_cons] at hnd
    have hhead : p.1.transactionHash ∉ rest.map (fun q => q.1.transactionHash) :=
      hnd.1
    have hndrest : (rest.map (fun q => q.1.transactionHash)).Nodup := hnd.2
    have hinv' : DedupInv (processTrade cfg st p.1 d a p.2).2 := by
      refine ⟨?_, ?_, ?_⟩
      · rcases hids with h | h
        · rw [h]; exact hinv1
        · rw [h]; simp [List.nodup_append, hinv1, hp1]
      · rcases hsub with h | h
        · rw [h]; exact hinv2
        · rw [h]; simp [List.nodup_append, hinv2, hp2]
      · intro x hx
        rcases hsub with h | h
        · rw [h] at hx
          rcases hinv3 x hx with hmem | hstop
          · left
            rcases hids with hi | hi
            · rw [hi]; exact hmem
            · rw [hi]; exact List.mem_append_left _ hmem
          · right; exact hrun hstop
        · rw [h] at hx
          rcases List.mem_append.mp hx with hx' | hx'
          · rcases hinv3 x hx' with hmem | hstop
            · left
              rcases hids with hi | hi
              · rw [hi]; exact hmem
              · rw [hi]; exact List.mem_append_left _ hmem
            · right; exact hrun hstop
          · have hxeq : x = p.1.transactionHash := by simpa using hx'
            subst hxeq
            rcases hsub4 h with hstop | hmem
            · right; exact hstop
            · left; exact hmem
    have hall' : ∀ q ∈ rest, q.1.transactionHash ∉
        recordIds (processTrade cfg st p.1 d a p.2).2 ∧
        q.1.transactionHash ∉ (processTrade cfg st p.1 d a p.2).2.ordersSubmitted := by
      intro q hq
      have hqne : q.1.transactionHash ≠ p.1.transactionHash := by
        intro hcontr
        exact hhead (by rw [← hcontr]; exact List.mem_map_of_mem _ hq)
      obtain ⟨hq1, hq2⟩ := hall q (List.mem_cons_of_mem p hq)
      constructor
      · rcases hids with hi | hi
        · rw [hi]; exact hq1
        · rw [hi]
          intro hmem
          rcases List.mem_append.mp hmem with hmem' | hmem'
          · exact hq1 hmem'
          · exact hqne (by simpa using hmem')
      · rcases hsub with hssub | hssub
        · rw [hssub]; exact hq2
        · rw [hssub]
          intro hmem
          rcases List.mem_append.mp hmem with hmem' | hmem'
          · exact hq2 hmem'
          · exact hqne (by simpa using hmem')
    exact foldl_dedup cfg d a rest _ hndrest hall' hinv'

theorem pollCycle_dedup (cfg : CopytradeConfig) (d a : Bool)
    (st : SessionState) (ts : Int) (f : List FetchItem)
    (hf : (f.map (fun p => p.1.transactionHash)).Nodup)
    (hrun : st.isRunning = true) (hinv : DedupInv st) :
    DedupInv (pollCycle cfg d a st ts f).1 := by
  simp only [pollCycle]
  have hinv0 : DedupInv ({ st with positionCache := [] } : SessionState) := by
    obtain ⟨h1, h2, h3⟩ := hinv
    exact ⟨h1, h2, h3⟩
  have hnd : ((newTradesOf ({ st with positionCache := [] }
      : SessionState).records ts f).map (fun p => p.1.transactionHash)).Nodup := by
    have hsubl : List.Sublist (newTradesOf ({ st with positionCache := [] }
        : SessionState).records ts f) f := List.filter_sublist _
    exact List.Nodup.sublist (List.Sublist.map _ hsubl) hf
  have hall : ∀ p ∈ newTradesOf ({ st with positionCache := [] }
      : SessionState).records ts f,
      p.1.transactionHash ∉ recordIds ({ st with positionCache := [] }
        : SessionState) ∧
      p.1.transactionHash ∉ ({ st with positionCache := [] }
        : SessionState).ordersSubmitted := by
    intro p hp
    have hcond := List.of_mem_filter hp
    have hnotproc : isTradeProcessed ({ st with positionCache := [] }
        : SessionState).records p.1.transactionHash = false := by
      rcases Bool.and_eq_true _ _ |>.mp hcond with ⟨_, hr⟩
      simpa using hr
    have h1 : p.1.transactionHash ∉ recordIds ({ st with positionCache := [] }
        : SessionState) := by
      intro hmem
      have := (isTradeProcessed_iff _ _).mpr hmem
      rw [hnotproc] at this
      exact Bool.noConfusion this
    refine ⟨h1, ?_⟩
    intro hmem
    rcases hinv0.2.2 _ hmem with hmem' | hstop
    · exact h1 hmem'
    · have hfalse : st.isRunning = false := hstop
      rw [hrun] at hfalse
      exact Bool.noConfusion hfalse
  have hmain := foldl_dedup cfg d a
    (newTradesOf ({ st with positionCache := [] } : SessionState).records ts f)
    ({ st with positionCache := [] } : SessionState) hnd hall hinv0
  cases hnt : newTradesOf ({ st with positionCache := [] }
      : SessionState).records ts f with
  | nil => rw [hnt] at hmain; simpa [hnt] using hmain
  | cons t rest => rw [hnt] at hmain; simpa [hnt] using hmain

theorem runCycles_dedup (cfg : CopytradeConfig) (d a : Bool) :
    ∀ (fetches : List (List FetchItem)) (st : SessionState) (ts : Int),
      (∀ f ∈ fetches, (f.map (fun p => p.1.transactionHash)).Nodup) →
      DedupInv st →
      DedupInv (runCycles cfg d a fetches st ts).1
| [], st, ts, _, hinv => hinv
| f :: fs, st, ts, hall, hinv => by
    simp only [runCycles]
    split_ifs with hrun
    · exact runCycles_dedup cfg d a fs _ _
        (fun g hg => hall g (List.mem_cons_of_mem f hg))
        (pollCycle_dedup cfg d a st ts f
          (hall f (List.mem_cons_self f fs)) hrun hinv)
    · exact hinv


/-- C2.  At-most-once application: starting from a log whose external
identifiers are unique (the UNIQUE column) and no submitted orders, after
any sequence of poll cycles whose individual fetches carry distinct
identifiers, every external identifier has at most one outcome record
and at most one order submission - even when the same trade is returned
by the feed in several cycles - and an identifier already present in the
log is filtered out of the batch before the decision logic runs. -/
theorem at_most_once_application (cfg : CopytradeConfig) (d a : Bool)
    (fetches : List (List FetchItem)) (st0 : SessionState) (ts : Int)
    (h0 : (recordIds st0).Nodup) (h1 : st0.ordersSubmitted = [])
    (hf : ∀ f ∈ fetches, (f.map (fun p => p.1.transactionHash)).Nodup) :
    (∀ h, (recordIds (runCycles cfg d a fetches st0 ts).1).count h ≤ 1) ∧
    (∀ h, ((runCycles cfg d a fetches st0 ts).1.ordersSubmitted).count h ≤ 1) ∧
    (∀ (records : List ExecutedTrade) (ts' : Int) (fetched : List FetchItem)
      (h : String), isTradeProcessed records h = true →
      ∀ p ∈ newTradesOf records ts' fetched, p.1.transactionHash ≠ h) := by
  have hinv : DedupInv st0 := by
    refine ⟨h0, ?_, ?_⟩
    · rw [h1]; exact List.nodup_nil
    · intro x hx
      rw [h1] at hx
      exact absurd hx (List.not_mem_nil x)
  have hres := runCycles_dedup cfg d a fetches st0 ts hf hinv
  refine ⟨?_, ?_, ?_⟩
  · exact fun h => List.nodup_iff_count_le_one.mp hres.1 h
  · exact fun h => List.nodup_iff_count_le_one.mp hres.2.1 h
  · intro records ts' fetched h hproc p hp heq
    have hcond := List.of_mem_filter hp
    rcases (Bool.and_eq_true _ _).mp hcond with ⟨_, hr⟩
    have hfalse : isTradeProcessed records p.1.transactionHash = false := by
      simpa using hr
    rw [heq, hproc] at hfalse
    exact Bool.noConfusion hfalse

/-- Witness for C2: the same sample buy fetched in two successive cycles
yields at most one record and at most one submission for its hash. -/
theorem at_most_once_application_witness :
    (recordIds (runCycles sampleConfig false false
      [[(sampleBuy, { apiShares := 0, call := OrderCall.returns okOrder })],
        [(sampleBuy, { apiShares := 0, call := OrderCall.returns okOrder })]]
      sampleState 0).1).count sampleBuy.transactionHash ≤ 1 ∧
    ((runCycles sampleConfig false false
      [[(sampleBuy, { apiShares := 0, call := OrderCall.returns okOrder })],
        [(sampleBuy, { apiShares := 0, call := OrderCall.returns okOrder })]]
      sampleState 0).1.ordersSubmitted).count sampleBuy.transactionHash ≤ 1 :=
  ⟨(at_most_once_application sampleConfig false false
      [[(sampleBuy, { apiShares := 0, call := OrderCall.returns okOrder })],
        [(sampleBuy, { apiShares := 0, call := OrderCall.returns okOrder })]]
      sampleState 0 (by simp [recordIds, sampleState]) rfl
      (by
        intro f hfm
        simp only [List.mem_cons, List.not_mem_nil, or_false] at hfm
        rcases hfm with h | h <;> subst h <;> simp)).1
    sampleBuy.transactionHash,
   (at_most_once_application sampleConfig false false
      [[(sampleBuy, { apiShares := 0, call := OrderCall.returns okOrder })],
        [(sampleBuy, { apiShares := 0, call := OrderCall.returns okOrder })]]
      sampleState 0 (by simp [recordIds, sampleState]) rfl
      (by
        intro f hfm
        simp only [List.mem_cons, List.not_mem_nil, or_false] at hfm
        rcases hfm with h | h <;> subst h <;> simp)).2.1
    sampleBuy.transactionHash⟩

theorem insertTrade_keys (t : ExecutedTrade) :
    ∀ gs : List (String × List ExecutedTrade),
      (insertTrade gs t).map Prod.fst =
        if t.assetId ∈ gs.map Prod.fst then gs.map Prod.fst
        else gs.map Prod.fst ++ [t.assetId]
| [] => by simp [insertTrade]
| (a, ts) :: rest => by
    by_cases hat : a = t.assetId
    · simp [insertTrade, hat]
    · have ih := insertTrade_keys t rest
      have hta : ¬ t.assetId = a := fun hx => hat hx.symm
      by_cases hmem : t.assetId ∈ rest.map Prod.fst
      · simp [insertTrade, hat, hmem, ih, hta]
      · simp [insertTrade, hat, hmem, ih, hta]

theorem filter_asset_eq_nil (seen : List ExecutedTrade) (x : String)
    (hx : x ∉ seen.map (fun r => r.assetId)) :
    seen.filter (fun r => decide (r.assetId = x)) = [] := by
  refine List.filter_eq_nil_iff.mpr ?_
  intro r hr h
  rw [decide_eq_true_eq] at h
  exact hx (by rw [← h]; exact List.mem_map_of_mem _ hr)

theorem insertTrade_content (t : ExecutedTrade) :
    ∀ (gs : List (String × List ExecutedTrade)) (seen : List ExecutedTrade),
      (gs.map Prod.fst).Nodup →
      (∀ p ∈ gs, p.2 = seen.filter (fun r => decide (r.assetId = p.1))) →
      (t.assetId ∉ gs.map Prod.fst →
        seen.filter (fun r => decide (r.assetId = t.assetId)) = []) →
      ∀ p ∈ insertTrade gs t,
        p.2 = (seen ++ [t]).filter (fun r => decide (r.assetId = p.1))
| [], seen, _, _, hnew, p, hp => by
    simp only [insertTrade, List.mem_singleton] at hp
    subst hp
    rw [List.filter_append, hnew (by simp)]
    simp
| (a, ts) :: rest, seen, hnd, hcont, hnew, p, hp => by
    rw [List.map_cons, List.nodup_cons] at hnd
    by_cases hat : a = t.assetId
    · rw [show insertTrade ((a, ts) :: rest) t =
          (a, ts ++ [t]) :: rest by simp [insertTrade, hat]] at hp
      rcases List.mem_cons.mp hp with hph | hpt
      · subst hph
        rw [List.filter_append]
        have hh := hcont (a, ts) (List.mem_cons_self _ _)
        simp only at hh
        rw [← hh]
        simp [hat]
      · have hh := hcont p (List.mem_cons_of_mem _ hpt)
        rw [List.filter_append, ← hh]
        have hpne : p.1 ≠ a := by
          intro hcontr
          have hpm : p.1 ∈ rest.map Prod.fst := List.mem_map_of_mem Prod.fst hpt
          rw [hcontr] at hpm
          exact hnd.1 hpm
        have : t.assetId ≠ p.1 := fun hx => hpne (by rw [← hx, hat])
        simp [this]
    · rw [show insertTrade ((a, ts) :: rest) t =
          (a, ts) :: insertTrade rest t by simp [insertTrade, hat]] at hp
      rcases List.mem_cons.mp hp with hph | hpt
      · subst hph
        have hh := hcont (a, ts) (List.mem_cons_self _ _)
        rw [List.filter_append, ← hh]
        have : t.assetId ≠ a := fun hx => hat hx.symm
        simp only at hh ⊢
        simp [this]
      · exact insertTrade_content t rest seen hnd.2
          (fun q hq => hcont q (List.mem_cons_of_mem _ hq))
          (fun hmem => hnew (by
            simp only [List.map_cons, List.mem_cons]
            rintro (hx | hx)
            · exact hat hx.symm
            · exact hmem hx))
          p hpt


theorem insertTrade_inv (gs : List (String × List ExecutedTrade))
    (seen : List ExecutedTrade) (t : ExecutedTrade)
    (hinv : GroupInv gs seen) : GroupInv (insertTrade gs t) (seen ++ [t]) := by
  obtain ⟨hnd, hcont, hiff⟩ := hinv
  have hkeys := insertTrade_keys t gs
  refine ⟨?_, ?_, ?_⟩
  · rw [hkeys]
    by_cases hmem : t.assetId ∈ gs.map Prod.fst
    · rw [if_pos hmem]; exact hnd
    · rw [if_neg hmem]
      simp [List.nodup_append, hnd, hmem]
  · exact insertTrade_content t gs seen hnd hcont
      (fun hmem => filter_asset_eq_nil seen t.assetId
        (fun hx => hmem ((hiff t.assetId).mpr hx)))
  · intro x
    rw [hkeys, List.map_append]
    by_cases hmem : t.assetId ∈ gs.map Prod.fst
    · rw [if_pos hmem]
      constructor
      · intro hx
        exact List.mem_append_left _ ((hiff x).mp hx)
      · intro hx
        rcases List.mem_append.mp hx with hx' | hx'
        · exact (hiff x).mpr hx'
        · have : x = t.assetId := by simpa using hx'
          rw [this]; exact hmem
    · rw [if_neg hmem]
      constructor
      · intro hx
        rcases List.mem_append.mp hx with hx' | hx'
        · exact List.mem_append_left _ ((hiff x).mp hx')
        · exact List.mem_append_right _ (by simpa using hx')
      · intro hx
        rcases List.mem_append.mp hx with hx' | hx'
        · exact List.mem_append_left _ ((hiff x).mpr hx')
        · exact List.mem_append_right _ (by simpa using hx')

theorem foldl_insert_inv :
    ∀ (ts : List ExecutedTrade) (gs : List (String × List ExecutedTrade))
      (seen : List ExecutedTrade), GroupInv gs seen →
      GroupInv (ts.foldl insertTrade gs) (seen ++ ts)
| [], gs, seen, hinv => by simpa using hinv
| t :: rest, gs, seen, hinv => by
    simp only [List.foldl_cons]
    have := foldl_insert_inv rest (insertTrade gs t) (seen ++ [t])
      (insertTrade_inv gs seen t hinv)
    simpa using this

theorem groupByAsset_inv (ts : List ExecutedTrade) :
    GroupInv (groupByAsset ts) ts := by
  have h0 : GroupInv [] [] := ⟨List.nodup_nil, by simp, by simp⟩
  have := foldl_insert_inv ts [] [] h0
  simpa [groupByAsset] using this


theorem filter_success_asset_side (records : List ExecutedTrade)
    (a : String) (sd : Side) :
    ((records.filter (fun t => decide (t.status = TradeStatus.SUCCESS))).filter
        (fun r => decide (r.assetId = a))).filter
      (fun t => decide (t.side = sd)) =
    records.filter (fun t =>
      decide (t.assetId = a ∧ t.side = sd ∧ t.status = TradeStatus.SUCCESS)) := by
  rw [List.filter_filter, List.filter_filter]
  apply List.filter_congr
  intro r hr
  rw [Bool.eq_iff_iff]
  simp only [Bool.and_eq_true, decide_eq_true_eq]
  tauto

theorem assetPnL_eq_spec (records : List ExecutedTrade) (a : String)
    (hpos : ∀ r ∈ records, 0 ≤ r.executedSize) :
    assetPnL ((records.filter (fun t =>
        decide (t.status = TradeStatus.SUCCESS))).filter
      (fun r => decide (r.assetId = a))) =
    if specSells records a = [] then 0 else specSellPnL records a := by
  have hsells := filter_success_asset_side records a Side.SELL
  have hbuys := filter_success_asset_side records a Side.BUY
  simp only [assetPnL]
  rw [hsells, hbuys]
  by_cases hnil : specSells records a = []
  · rw [if_pos hnil]
    rw [show records.filter (fun t => decide (t.assetId = a ∧
        t.side = Side.SELL ∧ t.status = TradeStatus.SUCCESS)) =
      specSells records a from rfl, hnil]
    simp
  · have hlen : ¬ (records.filter (fun t => decide (t.assetId = a ∧
        t.side = Side.SELL ∧ t.status = TradeStatus.SUCCESS))).length = 0 := by
      rw [show records.filter (fun t => decide (t.assetId = a ∧
          t.side = Side.SELL ∧ t.status = TradeStatus.SUCCESS)) =
        specSells records a from rfl]
      simpa [List.length_eq_zero] using hnil
    rw [if_neg hlen, if_neg hnil]
    have hshares0 : 0 ≤ ((specBuys records a).map
        (fun t => t.executedSize)).sum := by
      apply List.sum_nonneg
      intro x hx
      obtain ⟨r, hr, rfl⟩ := List.mem_map.mp hx
      exact hpos r (List.mem_of_mem_filter hr)
    have havg : (if 0 < ((records.filter (fun t => decide (t.assetId = a ∧
          t.side = Side.BUY ∧ t.status = TradeStatus.SUCCESS))).map
            (fun t => t.executedSize)).sum
        then ((records.filter (fun t => decide (t.assetId = a ∧
          t.side = Side.BUY ∧ t.status = TradeStatus.SUCCESS))).map
            (fun t => t.executedSize * t.price)).sum /
          ((records.filter (fun t => decide (t.assetId = a ∧
            t.side = Side.BUY ∧ t.status = TradeStatus.SUCCESS))).map
              (fun t => t.executedSize)).sum
        else 0) = specAvgBuyPrice records a := by
      rw [show records.filter (fun t => decide (t.assetId = a ∧
          t.side = Side.BUY ∧ t.status = TradeStatus.SUCCESS)) =
        specBuys records a from rfl]
      simp only [specAvgBuyPrice]
      by_cases hbe : specBuys records a = []
      · simp [hbe]
      · rw [if_neg hbe]
        by_cases hgt : 0 < ((specBuys records a).map
            (fun t => t.executedSize)).sum
        · rw [if_pos hgt]
        · rw [if_neg hgt]
          have hz : ((specBuys records a).map
              (fun t => t.executedSize)).sum = 0 :=
            le_antisymm (not_lt.mp hgt) hshares0
          rw [hz, div_zero]
    rw [show records.filter (fun t => decide (t.assetId = a ∧
        t.side = Side.SELL ∧ t.status = TradeStatus.SUCCESS)) =
      specSells records a from rfl]
    simp only [havg, specSellPnL]


theorem mem_sellAssets_iff (records : List ExecutedTrade) (a : String) :
    a ∈ (((records.filter (fun t => decide (t.side = Side.SELL ∧
      t.status = TradeStatus.SUCCESS))).map (fun t => t.assetId)).dedup) ↔
    specSells records a ≠ [] := by
  rw [List.mem_dedup]
  constructor
  · intro hx
    obtain ⟨r, hr, rfl⟩ := List.mem_map.mp hx
    have hcond := List.of_mem_filter hr
    rw [decide_eq_true_eq] at hcond
    intro hnil
    have hmem : r ∈ specSells records r.assetId := by
      apply List.mem_filter.mpr
      refine ⟨List.mem_of_mem_filter hr, ?_⟩
      rw [decide_eq_true_eq]
      exact ⟨rfl, hcond.1, hcond.2⟩
    rw [hnil] at hmem
    exact absurd hmem (List.not_mem_nil r)
  · intro hne
    obtain ⟨r, hr⟩ := List.exists_mem_of_ne_nil _ hne
    have hcond := List.of_mem_filter hr
    rw [decide_eq_true_eq] at hcond
    obtain ⟨ha, hside, hstat⟩ := hcond
    refine List.mem_map.mpr ⟨r, ?_, ha⟩
    apply List.mem_filter.mpr
    refine ⟨List.mem_of_mem_filter hr, ?_⟩
    rw [decide_eq_true_eq]
    exact ⟨hside, hstat⟩

/-- C9.  Realized profit formula and replay idempotence: the session's
realized profit (calculateRealizedPnL over the SUCCESS records) equals
the sum, over assets with at least one SUCCESS sell, of every sell's
proceeds minus its cost basis at the asset's weighted-average SUCCESS
buy price (zero when there are no buys); and being a pure function of
the log, recomputing it yields the same number. -/
theorem realized_pnl_formula (records : List ExecutedTrade)
    (hpos : ∀ r ∈ records, 0 ≤ r.executedSize) :
    sessionRealizedPnL records = specRealizedPnL records ∧
    sessionRealizedPnL records = sessionRealizedPnL records := by
  refine ⟨?_, rfl⟩
  obtain ⟨hnd, hcont, hiff⟩ := groupByAsset_inv
    (records.filter (fun t => decide (t.status = TradeStatus.SUCCESS)))
  have hstep1 : sessionRealizedPnL records =
      ((groupByAsset (records.filter (fun t =>
        decide (t.status = TradeStatus.SUCCESS)))).map
        (fun g => assetPnL ((records.filter (fun t =>
          decide (t.status = TradeStatus.SUCCESS))).filter
            (fun r => decide (r.assetId = g.1))))).sum := by
    simp only [sessionRealizedPnL, calculateRealizedPnL]
    congr 1
    apply List.map_congr_left
    intro p hp
    rw [hcont p hp]
  have hstep2 : ((groupByAsset (records.filter (fun t =>
        decide (t.status = TradeStatus.SUCCESS)))).map
        (fun g => assetPnL ((records.filter (fun t =>
          decide (t.status = TradeStatus.SUCCESS))).filter
            (fun r => decide (r.assetId = g.1))))).sum =
      (((groupByAsset (records.filter (fun t =>
        decide (t.status = TradeStatus.SUCCESS)))).map Prod.fst).map
        (fun a => assetPnL ((records.filter (fun t =>
          decide (t.status = TradeStatus.SUCCESS))).filter
            (fun r => decide (r.assetId = a))))).sum := by
    rw [List.map_map]
    rfl
  have hstep3 : (((groupByAsset (records.filter (fun t =>
        decide (t.status = TradeStatus.SUCCESS)))).map Prod.fst).map
        (fun a => assetPnL ((records.filter (fun t =>
          decide (t.status = TradeStatus.SUCCESS))).filter
            (fun r => decide (r.assetId = a))))).sum =
      ((groupByAsset (records.filter (fun t =>
        decide (t.status = TradeStatus.SUCCESS)))).map Prod.fst).toFinset.sum
        (fun a => assetPnL ((records.filter (fun t =>
          decide (t.status = TradeStatus.SUCCESS))).filter
            (fun r => decide (r.assetId = a)))) :=
    (List.sum_toFinset _ hnd).symm
  have hsub : ((((records.filter (fun t => decide (t.side = Side.SELL ∧
        t.status = TradeStatus.SUCCESS))).map (fun t => t.assetId)).dedup)).toFinset ⊆
      ((groupByAsset (records.filter (fun t =>
        decide (t.status = TradeStatus.SUCCESS)))).map Prod.fst).toFinset := by
    intro a ha
    rw [List.mem_toFinset] at ha ⊢
    rw [hiff]
    have hne := (mem_sellAssets_iff records a).mp ha
    obtain ⟨r, hr⟩ := List.exists_mem_of_ne_nil _ hne
    have hcond := List.of_mem_filter hr
    rw [decide_eq_true_eq] at hcond
    obtain ⟨ha', hside, hstat⟩ := hcond
    refine List.mem_map.mpr ⟨r, ?_, ha'⟩
    apply List.mem_filter.mpr
    refine ⟨List.mem_of_mem_filter hr, ?_⟩
    rw [decide_eq_true_eq]
    exact hstat
  have hvanish : ∀ a ∈ ((groupByAsset (records.filter (fun t =>
        decide (t.status = TradeStatus.SUCCESS)))).map Prod.fst).toFinset,
      a ∉ ((((records.filter (fun t => decide (t.side = Side.SELL ∧
        t.status = TradeStatus.SUCCESS))).map (fun t => t.assetId)).dedup)).toFinset →
      assetPnL ((records.filter (fun t =>
        decide (t.status = TradeStatus.SUCCESS))).filter
          (fun r => decide (r.assetId = a))) = 0 := by
    intro a _ hnot
    rw [List.mem_toFinset] at hnot
    have hnil : specSells records a = [] := by
      by_contra hne
      exact hnot ((mem_sellAssets_iff records a).mpr hne)
    rw [assetPnL_eq_spec records a hpos, if_pos hnil]
  have hstep4 : ((groupByAsset (records.filter (fun t =>
        decide (t.status = TradeStatus.SUCCESS)))).map Prod.fst).toFinset.sum
        (fun a => assetPnL ((records.filter (fun t =>
          decide (t.status = TradeStatus.SUCCESS))).filter
            (fun r => decide (r.assetId = a)))) =
      ((((records.filter (fun t => decide (t.side = Side.SELL ∧
        t.status = TradeStatus.SUCCESS))).map (fun t => t.assetId)).dedup)).toFinset.sum
        (fun a => assetPnL ((records.filter (fun t =>
          decide (t.status = TradeStatus.SUCCESS))).filter
            (fun r => decide (r.assetId = a)))) :=
    (Finset.sum_subset hsub hvanish).symm
  have hstep5 : ((((records.filter (fun t => decide (t.side = Side.SELL ∧
        t.status = TradeStatus.SUCCESS))).map (fun t => t.assetId)).dedup)).toFinset.sum
        (fun a => assetPnL ((records.filter (fun t =>
          decide (t.status = TradeStatus.SUCCESS))).filter
            (fun r => decide (r.assetId = a)))) =
      ((((records.filter (fun t => decide (t.side = Side.SELL ∧
        t.status = TradeStatus.SUCCESS))).map (fun t => t.assetId)).dedup)).toFinset.sum
        (specSellPnL records) := by
    apply Finset.sum_congr rfl
    intro a ha
    rw [List.mem_toFinset] at ha
    have hne := (mem_sellAssets_iff records a).mp ha
    rw [assetPnL_eq_spec records a hpos, if_neg hne]
  have hstep6 : ((((records.filter (fun t => decide (t.side = Side.SELL ∧
        t.status = TradeStatus.SUCCESS))).map (fun t => t.assetId)).dedup)).toFinset.sum
        (specSellPnL records) =
      (((((records.filter (fun t => decide (t.side = Side.SELL ∧
        t.status = TradeStatus.SUCCESS))).map (fun t => t.assetId)).dedup)).map
        (specSellPnL records)).sum :=
    List.sum_toFinset _ (List.nodup_dedup _)
  rw [hstep1, hstep2, hstep3, hstep4, hstep5, hstep6]
  rfl

/-- Witness for C9: on the sample log the session profit matches the
spec formula, and both equal one dollar fifty. -/
theorem realized_pnl_formula_witness :
    sessionRealizedPnL samplePnlRecords = specRealizedPnL samplePnlRecords ∧
    sessionRealizedPnL samplePnlRecords = 3/2 :=
  ⟨(realized_pnl_formula samplePnlRecords (by
      intro r hr
      simp only [samplePnlRecords, sampleBuyRecord, List.mem_cons,
        List.not_mem_nil, or_false] at hr
      rcases hr with h | h | h | h | h <;> subst h <;> norm_num)).1,
    by norm_num +decide [sessionRealizedPnL, calculateRealizedPnL,
      groupByAsset, insertTrade, assetPnL, samplePnlRecords,
      sampleBuyRecord]⟩

end Copytrade
